import Mathlib

/-!
# Calendar insights: shallow embedding

A shallow embedding of the calendar-insights aggregation engine
(`utils.py` and `insights.py`): event predicates, the `TimeInterval`
value type, and the concrete aggregators `DailyTimeInMeetings`,
`DailyTimeWasted` and `MostFrequentAttendees`.

Modelling conventions:
* `datetime` values are `Int` seconds since an epoch; `timedelta` values
  are `Int` seconds; `datetime.date()` is floor division by 86400
  (`dateOf`), and `datetime.combine(day, tod)` is `day * 86400 + tod`
  where a time-of-day is seconds from midnight.
* A Python dict (which preserves insertion order) is an association list
  `List (κ × ν)` with `alistGet` / `alistSet`: `alistSet` replaces the
  value in place when the key is present and appends otherwise, exactly
  like `d[k] = v`.
* `event.get('f', default)` on an optional field is a structure field
  with that default baked in; fields with no default (`start.dateTime`,
  `end.dateTime`, `attendee['email']`) are `Option`s.
* A Python runtime error (e.g. calling `.duration()` on `None`, or
  subtracting `None` from a datetime) is modelled as `none` in an
  `Option`-returning function.
-/

set_option autoImplicit false

namespace CalendarInsights

/-! ## Association lists (Python dict with insertion order) -/

/-- Python `d.get(k)`: first value bound to `k`, if any. -/
def alistGet {κ ν : Type} [DecidableEq κ] (m : List (κ × ν)) (k : κ) : Option ν :=
  match m with
  | [] => none
  | (k', v) :: rest => if k' = k then some v else alistGet rest k

/-- Python `d[k] = v`: replace in place when present, append otherwise. -/
def alistSet {κ ν : Type} [DecidableEq κ] (m : List (κ × ν)) (k : κ) (v : ν) :
    List (κ × ν) :=
  match m with
  | [] => [(k, v)]
  | (k', v') :: rest => if k' = k then (k, v) :: rest else (k', v') :: alistSet rest k v

/-! ## Event records -/

/-- One entry of `event['attendees']`, with the API defaults for the
optional fields (`responseStatus` ⇒ `needsAction`, `additionalGuests` ⇒ 0,
`resource`/`self` ⇒ false); `email` has no default in the code
(`attendee.get('email')`), so it stays an `Option`. -/
structure Attendee where
  email : Option String := none
  responseStatus : String := "needsAction"
  additionalGuests : Nat := 0
  resource : Bool := false
  self : Bool := false
deriving DecidableEq

/-- `event['organizer']`, with the defaults used by the code
(`organizer.get('email', '')`, `organizer.get('self', False)`). -/
structure Organizer where
  email : String := ""
  self : Bool := false
deriving DecidableEq

/-- A calendar event record, restricted to the fields the engine reads.
`start`/`end` model `event['start']['dateTime']` / `event['end']['dateTime']`
already parsed to seconds; `none` means the timestamp is absent
(all-day event). The remaining defaults follow the `event.get` calls. -/
structure Event where
  eventType : String := "default"
  status : String := "tentative"
  transparency : String := "opaque"
  start : Option Int := none
  «end» : Option Int := none
  organizer : Organizer := {}
  attendees : List Attendee := []
  attendeesOmitted : Bool := false
  guestsCanSeeOtherGuests : Bool := true
  recurringEventId : Option String := none
deriving DecidableEq

/-- Calendar day of a timestamp: `datetime.date()` as a day number. -/
def dateOf (t : Int) : Int := t.fdiv 86400

/-! ## `utils.py`: time interval -/

/-- `TimeInterval`: utility class for time ranges. -/
structure TimeInterval where
  start : Int
  «end» : Int
deriving DecidableEq

/-- `TimeInterval.overlaps`: check if this overlaps with another range. -/
def TimeInterval.overlaps (i other : TimeInterval) : Bool :=
  max i.start other.start < min i.«end» other.«end»

/-- `TimeInterval.merge`: a new range spanning the total time. -/
def TimeInterval.merge (i other : TimeInterval) : TimeInterval :=
  ⟨min i.start other.start, max i.«end» other.«end»⟩

/-- `TimeInterval.duration`: duration of the range. -/
def TimeInterval.duration (i : TimeInterval) : Int :=
  i.«end» - i.start

/-- `TimeInterval.date`: the day the range starts on. -/
def TimeInterval.date (i : TimeInterval) : Int :=
  dateOf i.start

/-! ## `utils.py`: event helpers -/

/-- `start_time`: start timestamp of an event if present (`None` for
all-day events); `datetime.fromisoformat` is the identity here because
timestamps are modelled already parsed. -/
def start_time (e : Event) : Option Int := e.start

/-- `end_time`: end timestamp of an event if present. -/
def end_time (e : Event) : Option Int := e.«end»

/-- `time_range`: a time range representing the event, `None` when either
timestamp is absent. -/
def time_range (e : Event) : Option TimeInterval :=
  match start_time e, end_time e with
  | some s, some en => some ⟨s, en⟩
  | _, _ => none

/-- `is_meeting`: excludes the non-meeting event types, then requires a
start timestamp. -/
def is_meeting (e : Event) : Bool :=
  if e.eventType = "outOfOffice" ∨ e.eventType = "focusTime" ∨
      e.eventType = "workingLocation" then
    false
  else
    (start_time e).isSome

/-- `did_attendee_accept`: the attendee's response status is `accepted`. -/
def did_attendee_accept (a : Attendee) : Bool :=
  a.responseStatus = "accepted"

/-- `self_attendee`: first attendee flagged `self`, if any. -/
def self_attendee (e : Event) : Option Attendee :=
  e.attendees.find? (fun a => a.self)

/-- `is_accepted`: the current user accepted (no self-attendee counts as
accepted). -/
def is_accepted (e : Event) : Bool :=
  match self_attendee e with
  | none => true
  | some a => did_attendee_accept a

/-- `is_confirmed`: status is `confirmed`. -/
def is_confirmed (e : Event) : Bool :=
  e.status = "confirmed"

/-- `is_busy`: not transparent, and accepted. -/
def is_busy (e : Event) : Bool :=
  if e.transparency = "transparent" then false
  else is_accepted e

/-- `is_pending`: tentative status, or a self-attendee whose response is
`needsAction`/`tentative`. -/
def is_pending (e : Event) : Bool :=
  if e.status = "tentative" then true
  else
    match self_attendee e with
    | some a => a.responseStatus = "needsAction" ∨ a.responseStatus = "tentative"
    | none => false

/-- `find_attendee`: first attendee whose email equals the given one. -/
def find_attendee (e : Event) (email : String) : Option Attendee :=
  e.attendees.find? (fun a => a.email = some email)

/-- `attendees_without_resources`: the human attendees of the event. -/
def attendees_without_resources (e : Event) : List Attendee :=
  e.attendees.filter (fun a => !a.resource)

/-- `is_organizer_attendee`: whether the organizer counts as an extra
attendee (not self, not a secondary calendar, not already listed). -/
def is_organizer_attendee (e : Event) : Bool :=
  let is_self := e.organizer.self
  let organizer_email := e.organizer.email
  let is_secondary_calendar := organizer_email.endsWith "calendar.google.com"
  let is_in_attendee_list := (find_attendee e organizer_email).isSome
  !is_self && !is_secondary_calendar && !is_in_attendee_list

/-- `count_attendees`: 1 for the organizer when applicable, plus
`1 + additionalGuests` per non-resource attendee. -/
def count_attendees (e : Event) : Nat :=
  (if is_organizer_attendee e then 1 else 0) +
    ((attendees_without_resources e).map (fun a => 1 + a.additionalGuests)).sum

/-- `is_organizer`: the current user is the event organizer. -/
def is_organizer (e : Event) : Bool :=
  e.organizer.self

/-- `are_attendees_missing`: the attendee list may be incomplete
(`attendeesOmitted`, or not organizer and guests cannot see each other). -/
def are_attendees_missing (e : Event) : Bool :=
  if e.attendeesOmitted then true
  else if !is_organizer e && !e.guestsCanSeeOtherGuests then true
  else false

/-- `is_one_on_one`: a meeting, attendee list complete, exactly two
attendees counted. -/
def is_one_on_one (e : Event) : Bool :=
  if !is_meeting e then false
  else if are_attendees_missing e then false
  else count_attendees e = 2

/-- `is_group_meeting`: a meeting with 3+ counted attendees; a possibly
incomplete attendee list is conservatively classified as a group. -/
def is_group_meeting (e : Event) : Bool :=
  if !is_meeting e then false
  else if are_attendees_missing e then true
  else 3 ≤ count_attendees e

/-! ## `insights.py`: aggregators

Each aggregator's `process` is `filter` followed by `_on_event`.  A step
returns `Option state`: `none` models a Python runtime error raised while
handling the event, `some st` the updated state.  `procList` folds a step
over a list of events, stopping at the first error as Python would. -/

/-- `WorkingHours`: working hours for a user, as seconds from midnight. -/
structure WorkingHours where
  start : Int
  «end» : Int
deriving DecidableEq

/-- Run a step function over events in order, propagating a raised error. -/
def procList {σ : Type} (step : σ → Event → Option σ) : σ → List Event → Option σ
  | st, [] => some st
  | st, e :: rest =>
    match step st e with
    | none => none
    | some st' => procList step st' rest

/-- `Insight.filter`: the base policy, meeting ∧ accepted ∧ confirmed ∧ busy. -/
def base_filter (e : Event) : Bool :=
  is_meeting e && is_accepted e && is_confirmed e && is_busy e

/-! ### `DailyTimeInMeetings` -/

/-- State of `DailyTimeInMeetings`: the per-day totals dict and the
previous-interval cursor. -/
structure DTIMState where
  days : List (Int × Int)
  previous_interval : Option TimeInterval
deriving DecidableEq

/-- `DailyTimeInMeetings.__init__`: empty days, no cursor. -/
def dtim_init : DTIMState := ⟨[], none⟩

/-- `DailyTimeInMeetings._on_event`: skip events with no interval; on no
overlap with the cursor add the new interval's duration to its start day
and install it as the cursor; on overlap add only the incremental duration
`merged.duration - previous.duration` to the merged interval's start day
and advance the cursor to the merged interval. -/
def dtim_on_event (st : DTIMState) (e : Event) : Option DTIMState :=
  match time_range e with
  | none => some st
  | some interval =>
    match st.previous_interval with
    | none =>
      let day := interval.date
      some ⟨alistSet st.days day
              (interval.duration + (alistGet st.days day).getD 0), some interval⟩
    | some prev =>
      if !(interval.overlaps prev) then
        let day := interval.date
        some ⟨alistSet st.days day
                (interval.duration + (alistGet st.days day).getD 0), some interval⟩
      else
        let merged := prev.merge interval
        let duration := merged.duration - prev.duration
        let day := merged.date
        some ⟨alistSet st.days day
                (duration + (alistGet st.days day).getD 0), some merged⟩

/-- `Insight.process` for `DailyTimeInMeetings` (base filter). -/
def dtim_process (st : DTIMState) (e : Event) : Option DTIMState :=
  if base_filter e then dtim_on_event st e else some st

/-- `DailyTimeInMeetings.generate`: the per-day totals. -/
def dtim_generate (st : DTIMState) : List (Int × Int) :=
  st.days

/-! ### `DailyTimeWasted` -/

/-- State of `DailyTimeWasted`: per day, the buffered qualifying events in
arrival order. -/
structure DTWState where
  days : List (Int × List Event)
deriving DecidableEq

/-- `DailyTimeWasted.__init__`. -/
def dtw_init : DTWState := ⟨[]⟩

/-- `DailyTimeWasted._on_event`: append the event to its start day's list
(`start_time(event).date()` raises when the start is absent, hence `none`
there; the base filter rules that out). -/
def dtw_on_event (st : DTWState) (e : Event) : Option DTWState :=
  match start_time e with
  | none => none
  | some s =>
    let day := dateOf s
    let events := (alistGet st.days day).getD []
    some ⟨alistSet st.days day (events ++ [e])⟩

/-- `Insight.process` for `DailyTimeWasted` (base filter). -/
def dtw_process (st : DTWState) (e : Event) : Option DTWState :=
  if base_filter e then dtw_on_event st e else some st

/-- `gap_if_wasted` inside `_calculate_day`: the gap `start - end` when it
is strictly between 0 and 3600 seconds, else zero. -/
def gap_if_wasted (start «end» : Int) : Int :=
  let gap := start - «end»
  if 0 < gap ∧ gap < 3600 then gap else 0

/-- The event loop of `_calculate_day`: fold `(previous_end, duration)`
over the day's events.  A missing start raises at the gap subtraction; a
missing end makes `previous_end` `None`, which raises at the next gap
computation (there always is one: the trailing working-hours gap), so the
error is surfaced here at the event that lacks the timestamp. -/
def calc_fold : List Event → Int → Int → Option (Int × Int)
  | [], previous_end, duration => some (previous_end, duration)
  | e :: rest, previous_end, duration =>
    match start_time e, end_time e with
    | some s, some en => calc_fold rest en (duration + gap_if_wasted s previous_end)
    | _, _ => none

/-- `DailyTimeWasted._calculate_day`: start the cursor at the working-hours
start of the day, accumulate qualifying gaps before each event, and close
with the gap to the working-hours end. -/
def calculate_day (wh : WorkingHours) (day : Int) (events : List Event) :
    Option Int :=
  let start_of_day := day * 86400 + wh.start
  match calc_fold events start_of_day 0 with
  | none => none
  | some (previous_end, duration) =>
    let end_of_day := day * 86400 + wh.«end»
    some (duration + gap_if_wasted end_of_day previous_end)

/-- `DailyTimeWasted.generate`: compute each buffered day. -/
def dtw_generate (wh : WorkingHours) (st : DTWState) : List (Int × Option Int) :=
  st.days.map (fun p => (p.1, calculate_day wh p.1 p.2))

/-! ### `MostFrequentAttendees` -/

/-- State of `MostFrequentAttendees`: total duration per attendee key
(`attendee.get('email')`, which may be `None`). -/
structure MFAState where
  people : List (Option String × Int)
deriving DecidableEq

/-- `MostFrequentAttendees.__init__`. -/
def mfa_init : MFAState := ⟨[]⟩

/-- The attendee loop of `_on_event`: skip attendees who did not accept
and the self attendee, and add the event duration to each remaining
attendee's total. -/
def mfa_fold (attendees : List Attendee) (duration : Int)
    (people : List (Option String × Int)) : List (Option String × Int) :=
  match attendees with
  | [] => people
  | a :: rest =>
    if !did_attendee_accept a then mfa_fold rest duration people
    else if a.self then mfa_fold rest duration people
    else
      mfa_fold rest duration
        (alistSet people a.email ((alistGet people a.email).getD 0 + duration))

/-- `MostFrequentAttendees._on_event`: `time_range(event).duration()` is
called with no `None` check, so an event with a missing timestamp raises
(`none`); otherwise fold the non-resource attendees. -/
def mfa_on_event (st : MFAState) (e : Event) : Option MFAState :=
  match time_range e with
  | none => none
  | some interval =>
    some ⟨mfa_fold (attendees_without_resources e) interval.duration st.people⟩

/-- `Insight.process` for `MostFrequentAttendees` (base filter). -/
def mfa_process (st : MFAState) (e : Event) : Option MFAState :=
  if base_filter e then mfa_on_event st e else some st

/-- Stable insertion used to model Python's stable `sorted(..., reverse=True)`
by duration descending: an entry goes before the first strictly smaller
duration, after all entries with a duration at least its own. -/
def insertByDurDesc (x : Option String × Int) :
    List (Option String × Int) → List (Option String × Int)
  | [] => [x]
  | y :: ys => if y.2 ≤ x.2 then x :: y :: ys else y :: insertByDurDesc x ys

/-- Stable sort by duration, descending (Python `sorted` with
`key = duration`, `reverse = True`). -/
def sortByDurDesc : List (Option String × Int) → List (Option String × Int)
  | [] => []
  | x :: xs => insertByDurDesc x (sortByDurDesc xs)

/-- `MostFrequentAttendees.generate`: entries sorted by total, descending. -/
def mfa_generate (st : MFAState) : List (Option String × Int) :=
  sortByDurDesc st.people

/-! ## Specification-side definitions

These follow the wording of the specification (and of the claims), to be
compared with the code-side definitions above. -/

/-- Guard of the wasted-gap rule written as a standalone function on a gap
length: a gap counts only when strictly positive and strictly under one
hour. -/
def wastedPart (g : Int) : Int :=
  if 0 < g ∧ g < 3600 then g else 0

/-- Cursor-relative gap list described by the spec: for each `(start, end)`
pair in order, the gap `start − cursor`, the cursor then advancing to
`end` regardless of whether the gap qualified. -/
def specGaps (cursor : Int) : List (Int × Int) → List Int
  | [] => []
  | (s, en) :: rest => (s - cursor) :: specGaps en rest

/-- Final cursor position after the walk of `specGaps`. -/
def specLastEnd (cursor : Int) : List (Int × Int) → Int
  | [] => cursor
  | (_, en) :: rest => specLastEnd en rest

/-- Per-day wasted time as the spec words it: the sum, over the day's
events in order plus a trailing gap to the working-hours end, of each gap
that is strictly between 0 and 3600 seconds. -/
def specWastedDay (wh : WorkingHours) (day : Int) (times : List (Int × Int)) : Int :=
  let start_of_day := day * 86400 + wh.start
  let end_of_day := day * 86400 + wh.«end»
  let gaps := specGaps start_of_day times ++ [end_of_day - specLastEnd start_of_day times]
  (gaps.map wastedPart).sum

/-- Extract the `(start, end)` timestamp pairs of a list of events;
`none` when some event lacks a timestamp. -/
def timesOf : List Event → Option (List (Int × Int))
  | [] => some []
  | e :: rest =>
    match start_time e, end_time e, timesOf rest with
    | some s, some en, some tl => some ((s, en) :: tl)
    | _, _, _ => none

/-- The event's interval, when it exists, does not overlap the interval `p`
(in the direction the code tests: `interval.overlaps(previous)`). -/
def overlapsPrevFalse (p : TimeInterval) (e : Event) : Bool :=
  match time_range e with
  | some i => !(i.overlaps p)
  | none => true

/-- The later event `b` does not overlap the earlier event `a` (vacuously
true when either has no interval). -/
def overlapsEarlierFalse (a b : Event) : Bool :=
  match time_range a with
  | some ia => overlapsPrevFalse ia b
  | none => true

/-- Pairwise non-overlapping events, in list order. -/
def pairwiseDisjointB : List Event → Bool
  | [] => true
  | a :: rest => rest.all (overlapsEarlierFalse a) && pairwiseDisjointB rest

/-- Non-decreasing start order of consecutive events (vacuous on missing
starts). -/
def sortedByStartB : List Event → Bool
  | [] => true
  | [_] => true
  | a :: b :: rest =>
    (match start_time a, start_time b with
     | some sa, some sb => decide (sa ≤ sb)
     | _, _ => true) && sortedByStartB (b :: rest)

/-- Intervals of the events that have one. -/
def intervalsOf (evts : List Event) : List TimeInterval :=
  evts.filterMap time_range

/-- Sum of the raw durations of the intervals starting on day `d`. -/
def dayTotal (l : List TimeInterval) (d : Int) : Int :=
  ((l.filter (fun i => decide (i.date = d))).map TimeInterval.duration).sum

/-- The interval does not overlap the cursor of the state (vacuously true
with no cursor installed). -/
def noOverlapPrev (st : DTIMState) (i : TimeInterval) : Bool :=
  match st.previous_interval with
  | none => true
  | some p => !(i.overlaps p)

/-- An event that passes the base filter yet has no derivable interval:
a start timestamp with no end timestamp. -/
def evStartNoEnd : Event :=
  { start := some 36000, status := "confirmed" }

/-! ## Helper lemmas -/

theorem alistGet_alistSet {κ ν : Type} [DecidableEq κ] (m : List (κ × ν)) (k k' : κ)
    (v : ν) :
    alistGet (alistSet m k v) k' = if k = k' then some v else alistGet m k' := by
  induction m with
  | nil => simp [alistSet, alistGet]
  | cons p rest ih =>
    obtain ⟨k0, v0⟩ := p
    by_cases h : k0 = k
    · subst h
      by_cases h' : k0 = k' <;> simp [alistSet, alistGet, h']
    · by_cases h' : k0 = k' <;> by_cases h'' : k = k' <;>
        simp_all [alistSet, alistGet]

theorem base_filter_is_meeting {e : Event} (h : base_filter e = true) :
    is_meeting e = true := by
  simp only [base_filter, Bool.and_eq_true] at h
  exact h.1.1.1

theorem is_meeting_start {e : Event} (h : is_meeting e = true) :
    ∃ s, start_time e = some s := by
  unfold is_meeting at h
  split at h
  · exact absurd h (by simp)
  · exact Option.isSome_iff_exists.mp h

theorem gap_if_wasted_eq_wastedPart (s e : Int) :
    gap_if_wasted s e = wastedPart (s - e) := rfl

theorem calc_fold_spec (events : List Event) (times : List (Int × Int))
    (h : timesOf events = some times) :
    ∀ cursor duration, calc_fold events cursor duration =
      some (specLastEnd cursor times,
            duration + ((specGaps cursor times).map wastedPart).sum) := by
  induction events generalizing times with
  | nil =>
    intro cursor duration
    simp only [timesOf, Option.some.injEq] at h
    subst h
    simp [calc_fold, specLastEnd, specGaps]
  | cons e rest ih =>
    intro cursor duration
    unfold timesOf at h
    cases hs : start_time e <;> rw [hs] at h
    · simp at h
    cases he : end_time e <;> rw [he] at h
    · simp at h
    cases ht : timesOf rest <;> rw [ht] at h
    · simp at h
    simp only [Option.some.injEq] at h
    subst h
    simp only [calc_fold, hs, he, specLastEnd, specGaps, List.map_cons,
      List.sum_cons, ih _ ht, gap_if_wasted_eq_wastedPart, Option.some.injEq,
      Prod.mk.injEq]
    exact ⟨trivial, by ring⟩

/-! ## Claims -/

/-- C2: the per-day wasted-time result equals the spec's description — the
sum of the gaps `event.start − cursor` over the day's events in order,
with the cursor starting at the working-hours start, advancing to each
event's end unconditionally, plus a trailing gap against the working-hours
end, each gap counting iff strictly between 0 and 3600 seconds. -/
theorem wasted_day_is_gap_sum (wh : WorkingHours) (day : Int)
    (events : List Event) (times : List (Int × Int))
    (h : timesOf events = some times) :
    calculate_day wh day events = some (specWastedDay wh day times) := by
  have hcf := calc_fold_spec events times h (day * 86400 + wh.start) 0
  simp only [calculate_day, hcf, specWastedDay, List.map_append, List.sum_append,
    List.map_cons, List.map_nil, List.sum_cons, List.sum_nil,
    gap_if_wasted_eq_wastedPart, Option.some.injEq]
  ring

theorem wasted_day_is_gap_sum_witness :
    calculate_day ⟨32400, 64800⟩ 0
        [{ start := some 32400, «end» := some 33600, status := "confirmed" },
         { start := some 35400, «end» := some 36000, status := "confirmed" }] =
      some (specWastedDay ⟨32400, 64800⟩ 0 [(32400, 33600), (35400, 36000)]) :=
  wasted_day_is_gap_sum ⟨32400, 64800⟩ 0
    [{ start := some 32400, «end» := some 33600, status := "confirmed" },
     { start := some 35400, «end» := some 36000, status := "confirmed" }]
    [(32400, 33600), (35400, 36000)] (by decide)

/-- C7: for a meeting with `attendeesOmitted = true`, `is_one_on_one` is
false and `is_group_meeting` is true, regardless of the attendee count. -/
theorem attendeesOmitted_forces_group (e : Event)
    (hm : is_meeting e = true) (ho : e.attendeesOmitted = true) :
    is_one_on_one e = false ∧ is_group_meeting e = true := by
  constructor <;> simp [is_one_on_one, is_group_meeting, are_attendees_missing, hm, ho]

theorem attendeesOmitted_forces_group_witness :
    is_one_on_one { start := some 0, attendeesOmitted := true } = false ∧
    is_group_meeting { start := some 0, attendeesOmitted := true } = true :=
  attendeesOmitted_forces_group
    { start := some 0, attendeesOmitted := true } (by decide) (by decide)

/-- C8: when the attendee list is complete and visible, `is_one_on_one`
and `is_group_meeting` are never both true. -/
theorem one_on_one_group_exclusive (e : Event)
    (h : are_attendees_missing e = false) :
    ¬ (is_one_on_one e = true ∧ is_group_meeting e = true) := by
  rintro ⟨h1, h2⟩
  cases hm : is_meeting e with
  | false => simp [is_one_on_one, hm] at h1
  | true =>
    simp only [is_one_on_one, is_group_meeting, hm, h, Bool.not_true, if_false,
      Bool.false_eq_true, decide_eq_true_eq] at h1 h2
    omega

theorem one_on_one_group_exclusive_witness :
    ¬ (is_one_on_one { start := some (0 : Int) } = true ∧
       is_group_meeting { start := some (0 : Int) } = true) :=
  one_on_one_group_exclusive { start := some (0 : Int) } (by decide)

/-- C9: the wasted time of a day with no events is the working-hours span
when that span is strictly between 0 and 3600 seconds and zero otherwise;
in particular a span of exactly 3600 seconds yields zero. -/
theorem empty_day_wasted (wh : WorkingHours) (day : Int) :
    calculate_day wh day [] =
      some (if 0 < wh.«end» - wh.start ∧ wh.«end» - wh.start < 3600
            then wh.«end» - wh.start else 0) ∧
    (wh.«end» - wh.start = 3600 → calculate_day wh day [] = some 0) := by
  have hspan : day * 86400 + wh.«end» - (day * 86400 + wh.start) =
      wh.«end» - wh.start := by ring
  constructor
  · simp [calculate_day, calc_fold, gap_if_wasted, hspan]
  · intro h
    simp [calculate_day, calc_fold, gap_if_wasted, hspan, h]

theorem empty_day_wasted_witness :
    calculate_day ⟨32400, 36000⟩ 5 [] = some 0 :=
  (empty_day_wasted ⟨32400, 36000⟩ 5).2 (by decide)

/-- C3 (code at the failing input): `evStartNoEnd` passes the base filter
yet has no derivable interval.  `DailyTimeInMeetings` skips it unchanged,
but `MostFrequentAttendees._on_event` raises on it (`none`), and
`DailyTimeWasted` buffers it — a state change — after which its day
computation raises at generate time. -/
theorem interval_less_event_behaviour :
    base_filter evStartNoEnd = true ∧
    time_range evStartNoEnd = none ∧
    dtim_process dtim_init evStartNoEnd = some dtim_init ∧
    mfa_process mfa_init evStartNoEnd = none ∧
    dtw_process dtw_init evStartNoEnd = some ⟨[(0, [evStartNoEnd])]⟩ ∧
    calculate_day ⟨32400, 64800⟩ 0 [evStartNoEnd] = none := by
  decide

/-- C4 (the claim as stated is false): with the cursor `[0, 3600)` whose
duration is already committed to day 0 and a qualifying non-overlapping
event `[7200, 9000)`, the step stores `1800 + 3600 = 5400` in day 0 — it
adds the new interval's duration, not the cursor's own duration, which
would leave `3600 + 3600`. -/
theorem nonoverlap_step_counterexample :
    base_filter { start := some 7200, «end» := some 9000, status := "confirmed" } = true ∧
    time_range { start := some 7200, «end» := some 9000, status := "confirmed" } =
      some ⟨7200, 9000⟩ ∧
    noOverlapPrev ⟨[(0, 3600)], some ⟨0, 3600⟩⟩ ⟨7200, 9000⟩ = true ∧
    dtim_process ⟨[(0, 3600)], some ⟨0, 3600⟩⟩
        { start := some 7200, «end» := some 9000, status := "confirmed" } =
      some ⟨[(0, 5400)], some ⟨7200, 9000⟩⟩ ∧
    ¬ (dtim_process ⟨[(0, 3600)], some ⟨0, 3600⟩⟩
          { start := some 7200, «end» := some 9000, status := "confirmed" } =
        some ⟨[(0, 3600 + 3600)], some ⟨7200, 9000⟩⟩) := by
  decide

/-- C4 (amended): when `DailyTimeInMeetings` processes a qualifying event
whose interval does not overlap the cursor, the step adds the new
interval's duration to the new interval's start-day bucket, installs the
new interval as the cursor, and changes no other day bucket. -/
theorem nonoverlap_step_commits_new_interval (st : DTIMState) (e : Event)
    (i : TimeInterval) (d : Int)
    (hf : base_filter e = true) (hi : time_range e = some i)
    (hprev : noOverlapPrev st i = true) (hd : d ≠ i.date) :
    dtim_process st e =
      some ⟨alistSet st.days i.date (i.duration + (alistGet st.days i.date).getD 0),
            some i⟩ ∧
    alistGet (alistSet st.days i.date
        (i.duration + (alistGet st.days i.date).getD 0)) d = alistGet st.days d := by
  constructor
  · simp only [dtim_process, hf, if_true, dtim_on_event, hi]
    unfold noOverlapPrev at hprev
    cases hp : st.previous_interval with
    | none => simp [hp]
    | some p =>
      rw [hp] at hprev
      simp only [Bool.not_eq_true'] at hprev
      simp [hp, hprev]
  · rw [alistGet_alistSet]
    simp [Ne.symm hd]

theorem nonoverlap_step_commits_new_interval_witness :
    dtim_process ⟨[(0, 3600)], some ⟨0, 3600⟩⟩
        { start := some 7200, «end» := some 9000, status := "confirmed" } =
      some ⟨alistSet [((0 : Int), (3600 : Int))] (TimeInterval.date ⟨7200, 9000⟩)
              ((TimeInterval.duration ⟨7200, 9000⟩) +
                (alistGet [((0 : Int), (3600 : Int))]
                  (TimeInterval.date ⟨7200, 9000⟩)).getD 0),
            some ⟨7200, 9000⟩⟩ ∧
    alistGet (alistSet [((0 : Int), (3600 : Int))] (TimeInterval.date ⟨7200, 9000⟩)
        ((TimeInterval.duration ⟨7200, 9000⟩) +
          (alistGet [((0 : Int), (3600 : Int))]
            (TimeInterval.date ⟨7200, 9000⟩)).getD 0)) 1 =
      alistGet [((0 : Int), (3600 : Int))] 1 :=
  nonoverlap_step_commits_new_interval ⟨[(0, 3600)], some ⟨0, 3600⟩⟩
    { start := some 7200, «end» := some 9000, status := "confirmed" }
    ⟨7200, 9000⟩ 1 (by decide) (by decide) (by decide) (by decide)

/-- C1: two qualifying overlapping meetings on the same day, fed in
non-decreasing start order, accumulate exactly the merged interval's
duration for that day, which is strictly less than the sum of the two raw
durations. -/
theorem dtim_overlap_merged_total (eA eB : Event) (i1 i2 : TimeInterval)
    (st : DTIMState)
    (hfA : base_filter eA = true) (hfB : base_filter eB = true)
    (hiA : time_range eA = some i1) (hiB : time_range eB = some i2)
    (hov : i2.overlaps i1 = true)
    (hday : i1.date = i2.date)
    (hord : i1.start ≤ i2.start)
    (hrun : procList dtim_process dtim_init [eA, eB] = some st) :
    alistGet st.days i1.date = some ((i1.merge i2).duration) ∧
    (i1.merge i2).duration < i1.duration + i2.duration := by
  have hmdate : (i1.merge i2).date = i1.date := by
    simp [TimeInterval.merge, TimeInterval.date, min_eq_left hord]
  have hst : procList dtim_process dtim_init [eA, eB] =
      some ⟨[(i1.date,
              (i1.merge i2).duration - i1.duration + (i1.duration + 0))],
            some (i1.merge i2)⟩ := by
    simp [procList, dtim_process, hfA, hfB, dtim_on_event, hiA, hiB, dtim_init,
      hov, hmdate, alistSet, alistGet]
  rw [hst] at hrun
  obtain rfl := Option.some.inj hrun
  constructor
  · have hval : (i1.merge i2).duration - i1.duration + (i1.duration + 0) =
        (i1.merge i2).duration := by ring
    simp [alistGet, hval]
  · obtain ⟨s1, e1⟩ := i1
    obtain ⟨s2, e2⟩ := i2
    simp only [TimeInterval.overlaps, TimeInterval.merge, TimeInterval.duration,
      decide_eq_true_eq] at hov ⊢
    omega

theorem dtim_overlap_merged_total_witness :
    alistGet [((0 : Int), (5400 : Int))] (TimeInterval.date ⟨36000, 39600⟩) =
      some ((TimeInterval.merge ⟨36000, 39600⟩ ⟨37800, 41400⟩).duration) ∧
    (TimeInterval.merge ⟨36000, 39600⟩ ⟨37800, 41400⟩).duration <
      (TimeInterval.duration ⟨36000, 39600⟩) + (TimeInterval.duration ⟨37800, 41400⟩) :=
  dtim_overlap_merged_total
    { start := some 36000, «end» := some 39600, status := "confirmed" }
    { start := some 37800, «end» := some 41400, status := "confirmed" }
    ⟨36000, 39600⟩ ⟨37800, 41400⟩ ⟨[(0, 5400)], some ⟨36000, 41400⟩⟩
    (by decide) (by decide) (by decide) (by decide) (by decide) (by decide)
    (by decide) (by decide)

theorem alistGet_alistSet_isSome {κ ν : Type} [DecidableEq κ] (m : List (κ × ν))
    (k k' : κ) (v : ν) :
    (alistGet (alistSet m k v) k').isSome = true ↔
      (k = k' ∨ (alistGet m k').isSome = true) := by
  rw [alistGet_alistSet]
  by_cases h : k = k' <;> simp [h]

theorem alistGet_map_pair {ν ρ : Type} (f : Int → ν → ρ) (m : List (Int × ν))
    (d : Int) :
    alistGet (m.map (fun p => (p.1, f p.1 p.2))) d = (alistGet m d).map (f d) := by
  induction m with
  | nil => simp [alistGet]
  | cons p rest ih =>
    obtain ⟨k, v⟩ := p
    by_cases h : k = d <;> simp [alistGet, h, ih]

theorem dtw_run_keys (evts : List Event) (st0 st1 : DTWState)
    (h : procList dtw_process st0 evts = some st1) (d : Int) :
    (alistGet st1.days d).isSome = true ↔
      ((alistGet st0.days d).isSome = true ∨
       ∃ e ∈ evts, base_filter e = true ∧ (start_time e).map dateOf = some d) := by
  induction evts generalizing st0 with
  | nil =>
    simp only [procList] at h
    obtain rfl := Option.some.inj h
    simp
  | cons e rest ih =>
    simp only [procList] at h
    cases hp : dtw_process st0 e <;> rw [hp] at h
    · simp at h
    case some stm =>
    have hrest := ih stm h
    unfold dtw_process at hp
    by_cases hf : base_filter e = true
    · rw [if_pos hf] at hp
      unfold dtw_on_event at hp
      obtain ⟨s, hs⟩ := is_meeting_start (base_filter_is_meeting hf)
      rw [hs] at hp
      obtain rfl := Option.some.inj hp
      rw [hrest]
      simp only [alistGet_alistSet_isSome, List.mem_cons, hf, hs, Option.map_some,
        Option.some.injEq, true_and]
      constructor
      · rintro ((hd | hA) | hR)
        · refine Or.inr ⟨e, Or.inl rfl, hf, ?_⟩
          rw [hs]
          simpa using hd
        · exact Or.inl hA
        · obtain ⟨x, hx, hxp⟩ := hR
          exact Or.inr ⟨x, Or.inr hx, hxp⟩
      · rintro (hA | ⟨x, hx | hx, hxp⟩)
        · exact Or.inl (Or.inr hA)
        · subst hx
          have := hxp.2
          rw [hs] at this
          exact Or.inl (Or.inl (by simpa using this))
        · exact Or.inr ⟨x, hx, hxp⟩
    · rw [if_neg hf] at hp
      obtain rfl := Option.some.inj hp
      rw [hrest]
      simp only [List.mem_cons]
      constructor
      · rintro (hA | ⟨x, hx, hxp⟩)
        · exact Or.inl hA
        · exact Or.inr ⟨x, Or.inr hx, hxp⟩
      · rintro (hA | ⟨x, hx | hx, hxp⟩)
        · exact Or.inl hA
        · subst hx
          exact absurd hxp.1 hf
        · exact Or.inr ⟨x, hx, hxp⟩

/-- C10: the map produced by `DailyTimeWasted.generate` has a key for a
calendar day iff some event passing the filter with a start timestamp on
that day was processed; a day with no qualifying events is absent. -/
theorem dtw_generate_keys (wh : WorkingHours) (evts : List Event) (st : DTWState)
    (d : Int) (h : procList dtw_process dtw_init evts = some st) :
    (alistGet (dtw_generate wh st) d).isSome = true ↔
      ∃ e ∈ evts, base_filter e = true ∧ (start_time e).map dateOf = some d := by
  have h1 : alistGet (dtw_generate wh st) d =
      (alistGet st.days d).map (calculate_day wh d) := by
    unfold dtw_generate
    exact alistGet_map_pair _ _ _
  have h2 := dtw_run_keys evts dtw_init st h d
  simp only [dtw_init, alistGet, Option.isSome_none, Bool.false_eq_true, false_or] at h2
  rw [h1]
  cases ho : alistGet st.days d <;> rw [ho] at h2 <;> simpa using h2

theorem dtw_generate_keys_witness :
    (alistGet (dtw_generate ⟨32400, 64800⟩ ⟨[(0,
        [{ start := some 36000, «end» := some 39600, status := "confirmed" }])]⟩) 0).isSome
      = true ↔
    ∃ e ∈ [({ start := some 36000, «end» := some 39600, status := "confirmed" } : Event)],
      base_filter e = true ∧ (start_time e).map dateOf = some 0 :=
  dtw_generate_keys ⟨32400, 64800⟩
    [{ start := some 36000, «end» := some 39600, status := "confirmed" }]
    ⟨[(0, [{ start := some 36000, «end» := some 39600, status := "confirmed" }])]⟩
    0 (by decide)

theorem mfa_fold_keys (atts : List Attendee) (dur : Int)
    (ppl : List (Option String × Int)) (k : Option String)
    (h : (alistGet (mfa_fold atts dur ppl) k).isSome = true) :
    (alistGet ppl k).isSome = true ∨
      ∃ a ∈ atts, did_attendee_accept a = true ∧ a.self = false ∧ a.email = k := by
  induction atts generalizing ppl with
  | nil => exact Or.inl h
  | cons a rest ih =>
    unfold mfa_fold at h
    cases hacc : did_attendee_accept a with
    | false =>
      rw [hacc] at h
      simp only [Bool.not_false, if_true] at h
      rcases ih _ h with h0 | ⟨b, hb, hq⟩
      · exact Or.inl h0
      · exact Or.inr ⟨b, List.mem_cons_of_mem _ hb, hq⟩
    | true =>
      rw [hacc] at h
      simp only [Bool.not_true, Bool.false_eq_true, if_false] at h
      cases hself : a.self with
      | true =>
        rw [hself] at h
        simp only [if_true] at h
        rcases ih _ h with h0 | ⟨b, hb, hq⟩
        · exact Or.inl h0
        · exact Or.inr ⟨b, List.mem_cons_of_mem _ hb, hq⟩
      | false =>
        rw [hself] at h
        simp only [Bool.false_eq_true, if_false] at h
        rcases ih _ h with h0 | ⟨b, hb, hq⟩
        · rcases (alistGet_alistSet_isSome _ _ _ _).mp h0 with hkey | h1
          · exact Or.inr ⟨a, List.mem_cons_self a rest, hacc, hself, hkey⟩
          · exact Or.inl h1
        · exact Or.inr ⟨b, List.mem_cons_of_mem _ hb, hq⟩

theorem mfa_run_keys (evts : List Event) (st0 st1 : MFAState)
    (h : procList mfa_process st0 evts = some st1) (k : Option String)
    (hk : (alistGet st1.people k).isSome = true) :
    (alistGet st0.people k).isSome = true ∨
      ∃ e ∈ evts, ∃ a ∈ attendees_without_resources e,
        did_attendee_accept a = true ∧ a.self = false ∧ a.email = k := by
  induction evts generalizing st0 with
  | nil =>
    simp only [procList] at h
    obtain rfl := Option.some.inj h
    exact Or.inl hk
  | cons e rest ih =>
    simp only [procList] at h
    cases hp : mfa_process st0 e <;> rw [hp] at h
    · simp at h
    case some stm =>
    rcases ih stm h with hin | ⟨x, hx, hq⟩
    · unfold mfa_process at hp
      by_cases hf : base_filter e = true
      · rw [if_pos hf] at hp
        unfold mfa_on_event at hp
        cases htr : time_range e <;> rw [htr] at hp
        · simp at hp
        · obtain rfl := Option.some.inj hp
          rcases mfa_fold_keys _ _ _ _ hin with hin0 | ⟨a, ha, hq⟩
          · exact Or.inl hin0
          · exact Or.inr ⟨e, List.mem_cons_self e rest, a, ha, hq⟩
      · rw [if_neg hf] at hp
        obtain rfl := Option.some.inj hp
        exact Or.inl hin
    · exact Or.inr ⟨x, List.mem_cons_of_mem _ hx, hq⟩

theorem mem_insertByDurDesc {x q : Option String × Int}
    {l : List (Option String × Int)} :
    q ∈ insertByDurDesc x l ↔ q = x ∨ q ∈ l := by
  induction l with
  | nil => simp [insertByDurDesc]
  | cons y ys ih =>
    by_cases hc : y.2 ≤ x.2
    · simp [insertByDurDesc, hc]
    · simp [insertByDurDesc, hc, ih]
      tauto

theorem insertByDurDesc_pairwise (x : Option String × Int)
    (l : List (Option String × Int))
    (h : List.Pairwise (fun p q => q.2 ≤ p.2) l) :
    List.Pairwise (fun p q => q.2 ≤ p.2) (insertByDurDesc x l) := by
  induction l with
  | nil => simp [insertByDurDesc]
  | cons y ys ih =>
    rw [List.pairwise_cons] at h
    obtain ⟨hy, hys⟩ := h
    by_cases hc : y.2 ≤ x.2
    · simp only [insertByDurDesc, if_pos hc]
      rw [List.pairwise_cons]
      refine ⟨?_, List.pairwise_cons.mpr ⟨hy, hys⟩⟩
      intro q hq
      rcases List.mem_cons.mp hq with rfl | hq'
      · exact hc
      · exact le_trans (hy q hq') hc
    · simp only [insertByDurDesc, if_neg hc]
      rw [List.pairwise_cons]
      refine ⟨?_, ih hys⟩
      intro q hq
      rcases mem_insertByDurDesc.mp hq with rfl | hq'
      · exact le_of_lt (lt_of_not_le hc)
      · exact hy q hq'

theorem sortByDurDesc_pairwise (l : List (Option String × Int)) :
    List.Pairwise (fun p q => q.2 ≤ p.2) (sortByDurDesc l) := by
  induction l with
  | nil => simp [sortByDurDesc]
  | cons x xs ih => exact insertByDurDesc_pairwise x _ ih

theorem filter_insertByDurDesc (x : Option String × Int)
    (l : List (Option String × Int)) (d : Int) :
    (insertByDurDesc x l).filter (fun q => decide (q.2 = d)) =
      if x.2 = d then x :: l.filter (fun q => decide (q.2 = d))
      else l.filter (fun q => decide (q.2 = d)) := by
  induction l with
  | nil => by_cases hx : x.2 = d <;> simp [insertByDurDesc, hx]
  | cons y ys ih =>
    by_cases hc : y.2 ≤ x.2
    · simp only [insertByDurDesc, if_pos hc, List.filter_cons]
      by_cases hx : x.2 = d <;> simp [hx]
    · simp only [insertByDurDesc, if_neg hc, List.filter_cons, ih]
      by_cases hx : x.2 = d
      · have hyd : ¬ y.2 = d := by omega
        simp [hx, hyd]
      · simp [hx]

theorem filter_sortByDurDesc (l : List (Option String × Int)) (d : Int) :
    (sortByDurDesc l).filter (fun q => decide (q.2 = d)) =
      l.filter (fun q => decide (q.2 = d)) := by
  induction l with
  | nil => rfl
  | cons x xs ih =>
    simp only [sortByDurDesc, filter_insertByDurDesc, ih, List.filter_cons]
    by_cases hx : x.2 = d <;> simp [hx]

/-- C6: every key in `MostFrequentAttendees`' accumulated totals originates
from a non-resource, non-self attendee whose response status is accepted;
and `generate`'s output is sorted by duration non-increasingly with
equal-duration entries keeping their encounter order (the entries of any
given duration appear exactly as in the accumulation order). -/
theorem mfa_totals_and_sort (evts : List Event) (st : MFAState)
    (h : procList mfa_process mfa_init evts = some st)
    (k : Option String) (hk : (alistGet st.people k).isSome = true) (d : Int) :
    (∃ e ∈ evts, ∃ a ∈ attendees_without_resources e,
        did_attendee_accept a = true ∧ a.self = false ∧ a.email = k) ∧
    List.Pairwise (fun p q : Option String × Int => q.2 ≤ p.2) (mfa_generate st) ∧
    (mfa_generate st).filter (fun q => decide (q.2 = d)) =
      st.people.filter (fun q => decide (q.2 = d)) := by
  refine ⟨?_, ?_, ?_⟩
  · rcases mfa_run_keys evts mfa_init st h k hk with h0 | hex
    · simp [mfa_init, alistGet] at h0
    · exact hex
  · exact sortByDurDesc_pairwise st.people
  · exact filter_sortByDurDesc st.people d

theorem mfa_totals_and_sort_witness :
    (∃ e ∈ [({ start := some 0, «end» := some 3600, status := "confirmed",
               attendees := [{ email := some "a", responseStatus := "accepted" },
                             { email := some "b" },
                             { email := some "r", resource := true,
                               responseStatus := "accepted" },
                             { email := some "me", self := true,
                               responseStatus := "accepted" }] } : Event)],
        ∃ a ∈ attendees_without_resources e,
          did_attendee_accept a = true ∧ a.self = false ∧ a.email = some "a") ∧
    List.Pairwise (fun p q : Option String × Int => q.2 ≤ p.2)
      (mfa_generate ⟨[(some "a", 3600)]⟩) ∧
    (mfa_generate ⟨[(some "a", 3600)]⟩).filter (fun q => decide (q.2 = 3600)) =
      (MFAState.people ⟨[(some "a", 3600)]⟩).filter (fun q => decide (q.2 = 3600)) :=
  mfa_totals_and_sort
    [{ start := some 0, «end» := some 3600, status := "confirmed",
       attendees := [{ email := some "a", responseStatus := "accepted" },
                     { email := some "b" },
                     { email := some "r", resource := true,
                       responseStatus := "accepted" },
                     { email := some "me", self := true,
                       responseStatus := "accepted" }] }]
    ⟨[(some "a", 3600)]⟩ (by decide) (some "a") (by decide) 3600

theorem dayTotal_cons (i : TimeInterval) (l : List TimeInterval) (d : Int) :
    dayTotal (i :: l) d = (if i.date = d then i.duration else 0) + dayTotal l d := by
  unfold dayTotal
  by_cases h : i.date = d <;> simp [List.filter_cons, h]

theorem dayTotal_eq_zero_of_any_false (l : List TimeInterval) (d : Int)
    (h : l.any (fun i => decide (i.date = d)) = false) : dayTotal l d = 0 := by
  induction l with
  | nil => rfl
  | cons i l ih =>
    simp only [List.any_cons, Bool.or_eq_false_iff] at h
    rw [dayTotal_cons]
    have hid : ¬ i.date = d := by
      intro hc
      simp [hc] at h
    rw [if_neg hid, ih h.2]
    ring

theorem dtim_run_disjoint (es : List Event) :
    ∀ st : DTIMState,
    (∀ e ∈ es, base_filter e = true ∧ (time_range e).isSome = true) →
    pairwiseDisjointB es = true →
    (∀ p, st.previous_interval = some p → ∀ e ∈ es, overlapsPrevFalse p e = true) →
    ∃ st', procList dtim_process st es = some st' ∧
      ∀ d, alistGet st'.days d =
        if (intervalsOf es).any (fun i => decide (i.date = d))
        then some ((alistGet st.days d).getD 0 + dayTotal (intervalsOf es) d)
        else alistGet st.days d := by
  induction es with
  | nil =>
    intro st hq hdisj hprev
    refine ⟨st, rfl, ?_⟩
    intro d
    simp [intervalsOf]
  | cons e rest ih =>
    intro st hq hdisj hprev
    obtain ⟨hf, hiS⟩ := hq e (List.mem_cons_self e rest)
    obtain ⟨i, hi⟩ := Option.isSome_iff_exists.mp hiS
    have hstep : dtim_process st e = some ⟨alistSet st.days i.date
        (i.duration + (alistGet st.days i.date).getD 0), some i⟩ := by
      simp only [dtim_process, hf, if_true, dtim_on_event, hi]
      cases hp : st.previous_interval with
      | none => rfl
      | some p =>
        have hop := hprev p hp e (List.mem_cons_self e rest)
        unfold overlapsPrevFalse at hop
        rw [hi] at hop
        simp only [Bool.not_eq_true'] at hop
        simp [hop]
    have hdisj2 : rest.all (overlapsEarlierFalse e) = true ∧
        pairwiseDisjointB rest = true := by
      simp only [pairwiseDisjointB, Bool.and_eq_true] at hdisj
      exact hdisj
    have hall : ∀ b ∈ rest, overlapsEarlierFalse e b = true :=
      List.all_eq_true.mp hdisj2.1
    have hq' : ∀ e' ∈ rest, base_filter e' = true ∧ (time_range e').isSome = true :=
      fun e' he' => hq e' (List.mem_cons_of_mem _ he')
    have hprev' : ∀ p, (some i : Option TimeInterval) = some p →
        ∀ b ∈ rest, overlapsPrevFalse p b = true := by
      intro p hp b hb
      obtain rfl := Option.some.inj hp
      have hob := hall b hb
      unfold overlapsEarlierFalse at hob
      rw [hi] at hob
      exact hob
    obtain ⟨st', hrun', hlook⟩ :=
      ih ⟨alistSet st.days i.date (i.duration + (alistGet st.days i.date).getD 0),
          some i⟩ hq' hdisj2.2 hprev'
    refine ⟨st', ?_, ?_⟩
    · simp only [procList, hstep]
      exact hrun'
    · intro d
      have hl := hlook d
      have hint : intervalsOf (e :: rest) = i :: intervalsOf rest := by
        unfold intervalsOf
        rw [List.filterMap_cons, hi]
      rw [hint]
      have hget1 : alistGet (alistSet st.days i.date
          (i.duration + (alistGet st.days i.date).getD 0)) i.date =
          some (i.duration + (alistGet st.days i.date).getD 0) := by
        rw [alistGet_alistSet]
        simp
      by_cases hd : i.date = d
      · subst hd
        rw [hl]
        simp only [hget1, List.any_cons, decide_True, Bool.true_or, if_true,
          dayTotal_cons, Option.getD_some]
        cases hany : (intervalsOf rest).any (fun j => decide (j.date = i.date)) with
        | true =>
          simp only [hany, if_true, Option.some.injEq]
          ring
        | false =>
          rw [dayTotal_eq_zero_of_any_false _ _ hany]
          simp only [hany, Bool.false_eq_true, if_false, hget1, Option.some.injEq]
          ring
      · have hget2 : alistGet (alistSet st.days i.date
            (i.duration + (alistGet st.days i.date).getD 0)) d = alistGet st.days d := by
          rw [alistGet_alistSet, if_neg hd]
        rw [hl, hget2]
        simp only [List.any_cons, dayTotal_cons, if_neg hd, decide_eq_true_eq, hd,
          decide_False, Bool.false_or, zero_add, if_false]

/-- C5: for pairwise non-overlapping qualifying meetings fed in
non-decreasing start order, `DailyTimeInMeetings.generate` maps each day
with a meeting to the sum of the raw durations of the meetings starting
that day, and holds no other day. -/
theorem dtim_disjoint_day_totals (es : List Event) (st : DTIMState) (d : Int)
    (hq : ∀ e ∈ es, base_filter e = true ∧ (time_range e).isSome = true)
    (hdisj : pairwiseDisjointB es = true)
    (hsort : sortedByStartB es = true)
    (hrun : procList dtim_process dtim_init es = some st) :
    alistGet (dtim_generate st) d =
      if (intervalsOf es).any (fun i => decide (i.date = d))
      then some (dayTotal (intervalsOf es) d)
      else none := by
  obtain ⟨st', hrun', hlook⟩ := dtim_run_disjoint es dtim_init hq hdisj
    (by intro p hp; simp [dtim_init] at hp)
  rw [hrun] at hrun'
  obtain rfl := Option.some.inj hrun'
  have hl := hlook d
  simpa [dtim_generate, dtim_init, alistGet] using hl

theorem dtim_disjoint_day_totals_witness :
    alistGet (dtim_generate ⟨[(0, 3600), (1, 3600)], some ⟨122400, 126000⟩⟩) 0 =
      if (intervalsOf
            [{ start := some 36000, «end» := some 39600, status := "confirmed" },
             { start := some 122400, «end» := some 126000, status := "confirmed" }]).any
          (fun i => decide (i.date = 0))
      then some (dayTotal (intervalsOf
            [{ start := some 36000, «end» := some 39600, status := "confirmed" },
             { start := some 122400, «end» := some 126000, status := "confirmed" }]) 0)
      else none :=
  dtim_disjoint_day_totals
    [{ start := some 36000, «end» := some 39600, status := "confirmed" },
     { start := some 122400, «end» := some 126000, status := "confirmed" }]
    ⟨[(0, 3600), (1, 3600)], some ⟨122400, 126000⟩⟩ 0
    (by decide) (by decide) (by decide) (by decide)

end CalendarInsights
